import Mathlib

/-!
Verification of the CRDT persistent trie engine
(`src/lib/persistent/trie.ts` of the refactory repository).

The TypeScript source is shallowly embedded:

* JavaScript objects used as string-keyed maps (`VectorClock`, the
  children `Map` of a branch node) become association lists
  `List (String × _)`; JavaScript object spread / `Map.set` keep the
  position of an existing key and append a new key, which `upsertA`
  reproduces, and key lookup is `lookupA` (first match).
* Clock entries are JavaScript numbers restricted to the values the
  engine manipulates: natural counters, plus `NaN`, which arises in
  `set` from `container.version[container.id] + 1` when the entry is
  absent (`undefined + 1` is `NaN` in JavaScript).  `JsNum` has the two
  constructors `num` and `nan`; comparisons against `NaN` are `false`
  and `Math.max` with `NaN` is `NaN`, as in JavaScript.
* The `any`-typed payload of a value leaf becomes the inductive `Val`
  of JSON-like values.
* The source field `isLeaf` of `TrieNode` is redundant with the
  `nodeType` tag (the source always sets `isLeaf` to `true` exactly on
  value nodes), so `Trie` carries only the tag; `isLeafOf` recovers it.
* `throw` (in `setInTrie`) becomes `Option`: `none` is the thrown
  error, `some` the returned tree.
-/

/-- A JavaScript number as it occurs in clock entries: a natural
counter, or `NaN` (produced by `undefined + 1`). -/
inductive JsNum where
  | num (n : Nat)
  | nan
deriving DecidableEq, Repr

/-- True on a real number, false on `NaN`. -/
def JsNum.isNum : JsNum → Bool
  | .num _ => true
  | .nan => false

/-- Association-list lookup: first entry with the given key, as for a
JavaScript object property read (`undefined` = `none`). -/
def lookupA {α : Type} : List (String × α) → String → Option α
  | [], _ => none
  | (k0, v0) :: rest, k => if k0 = k then some v0 else lookupA rest k

/-- Association-list update, with JavaScript object-spread / `Map.set`
semantics: an existing key keeps its position, a new key is appended. -/
def upsertA {α : Type} : List (String × α) → String → α → List (String × α)
  | [], k, v => [(k, v)]
  | (k0, v0) :: rest, k, v =>
    if k0 = k then (k0, v) :: rest else (k0, v0) :: upsertA rest k v

/-- Association-list removal of the first entry with the given key
(JavaScript `Map.delete`). -/
def eraseA {α : Type} : List (String × α) → String → List (String × α)
  | [], _ => []
  | (k0, v0) :: rest, k =>
    if k0 = k then rest else (k0, v0) :: eraseA rest k

/-- Vector clock: mapping from replica identifier to counter
(`type VectorClock = { [nodeId: string]: number }`). -/
abbrev VectorClock : Type := List (String × JsNum)

/-- The JavaScript idiom `x || 0`: an absent entry (`undefined`), `NaN`
and `0` are falsy and give `0`; any other number gives itself. -/
def or0 : Option JsNum → Nat
  | some (.num n) => n
  | _ => 0

/-- Clock entry read with the absent-means-zero convention
(`clock[k] || 0`), also flattening `NaN` to `0` as `||` does. -/
def lookup0 (c : VectorClock) (k : String) : Nat := or0 (lookupA c k)

/-- JavaScript `x > y` for a real number `x` and a clock entry `y`:
false when `y` is `NaN`. -/
def jsGt (n : Nat) : JsNum → Bool
  | .num m => decide (m < n)
  | .nan => false

/-- JavaScript `x < y` for a real number `x` and a clock entry `y`:
false when `y` is `NaN`. -/
def jsLt (n : Nat) : JsNum → Bool
  | .num m => decide (n < m)
  | .nan => false

/-- JavaScript `Math.max(x, y)` for a real number `x` and a clock entry
`y`: `NaN` when `y` is `NaN`. -/
def jsMax (n : Nat) : JsNum → JsNum
  | .num m => .num (Nat.max n m)
  | .nan => .nan

/-- JavaScript `x + 1` where `x` is an optional clock entry:
`undefined + 1` and `NaN + 1` are both `NaN`. -/
def jsInc : Option JsNum → JsNum
  | some (.num n) => .num (n + 1)
  | _ => .nan

/-- A JSON-like payload, the embedding of the `any`-typed `value` field
of a value leaf. -/
inductive Val where
  | vnat (n : Nat)
  | vstr (s : String)
  | varr (elems : List Val)
  | vobj (fields : List (String × Val))

/-- A trie node (`TrieNode` of the source): a versioned value leaf or a
branch whose children keep `Map` insertion order. -/
inductive Trie where
  | value (v : Val) (version : VectorClock)
  | branch (children : List (String × Trie))

/-- The redundant `isLeaf` field of the source `TrieNode` record, which
is always `true` exactly on value nodes. -/
def isLeafOf : Trie → Bool
  | .value _ _ => true
  | .branch _ => false

/-- A container (`Container` of the source): root trie, replica id and
owning vector clock. -/
structure Container where
  root : Trie
  id : String
  version : VectorClock

/-- Source `empty()`: a branch with no children. -/
def emptyTrie : Trie := .branch []

/-- Source `createContainer(id)`: empty root and version `{ [id]: 0 }`. -/
def createContainer (id : String) : Container :=
  { root := emptyTrie, id := id, version := [(id, .num 0)] }

/-- Source `get(path, trie)`: walk branch children segment by segment;
`undefined` when a segment is missing or a leaf is hit early. -/
def get : List String → Trie → Option Trie
  | [], t => some t
  | k :: rest, .branch ch =>
    match lookupA ch k with
    | some next => get rest next
    | none => none
  | _ :: _, .value _ _ => none

/-- Source `setInTrie(path, value, version, trie)`: write a value leaf
at the path, rebuilding the branches along it; `none` models the
thrown `Cannot set path on value node` error. -/
def setInTrie : List String → Val → VectorClock → Trie → Option Trie
  | [], v, ver, _ => some (.value v ver)
  | _ :: _, _, _, .value _ _ => none
  | k :: rest, v, ver, .branch ch =>
    let child := (lookupA ch k).getD emptyTrie
    (setInTrie rest v ver child).map fun c => .branch (upsertA ch k c)

/-- Source `set(path, value, container)`: bump the container's own
version entry (note: `container.version[container.id] + 1`, with no
`|| 0` default, so an absent entry gives `NaN`) and write the leaf,
which carries the new clock. -/
def set (path : List String) (v : Val) (c : Container) : Option Container :=
  let newVersion := upsertA c.version c.id (jsInc (lookupA c.version c.id))
  (setInTrie path v newVersion c.root).map fun r =>
    { c with root := r, version := newVersion }

/-- The loop body of source `happensBefore`: iterate over the entries
of `b`, reading `a[nodeId] || 0`; return `false` as soon as an entry of
`a` exceeds the one of `b`, otherwise accumulate whether some entry was
strictly less. -/
def happensBeforeLoop (a : VectorClock) : List (String × JsNum) → Bool → Bool
  | [], hasStrictlyLess => hasStrictlyLess
  | (k, bv) :: rest, hasStrictlyLess =>
    let aVersion := lookup0 a k
    if jsGt aVersion bv then false
    else happensBeforeLoop a rest (hasStrictlyLess || jsLt aVersion bv)

/-- Source `happensBefore(a, b)`: note that only the keys of `b` are
examined. -/
def happensBefore (a b : VectorClock) : Bool := happensBeforeLoop a b false

/-- Source `mergeClocks(a, b)`: start from a copy of `a` and fold the
entries of `b` in with `Math.max(result[nodeId] || 0, b[nodeId])`. -/
def mergeClocks (a b : VectorClock) : VectorClock :=
  b.foldl (fun r kv => upsertA r kv.1 (jsMax (or0 (lookupA r kv.1)) kv.2)) a

mutual

/-- Source `mergeTries(a, b)`: two value leaves resolve by
`happensBefore` (the `newer` one wins), two branches merge children
key-wise, and mixed shapes take `b`. -/
def mergeTries : Trie → Trie → Trie
  | .value v va, .value w wb =>
    if happensBefore va wb then .value w wb else .value v va
  | .branch ca, .branch cb =>
    .branch (mergeChildren ca cb ++
      cb.filter fun kv => (lookupA ca kv.1).isNone)
  | .value _ _, b => b
  | .branch _, b => b

/-- The source loop over `b.children` inside `mergeTries`, restated on
the copied children of `a`: a key of `a` also present in `b` recurses,
a key only in `a` is kept; keys only in `b` are appended by the caller. -/
def mergeChildren : List (String × Trie) → List (String × Trie) → List (String × Trie)
  | [], _ => []
  | (k, ac) :: rest, cb =>
    (k, match lookupA cb k with
        | some bc => mergeTries ac bc
        | none => ac) :: mergeChildren rest cb

end

/-- Source `merge(a, b)` on containers: same id takes the newer of the
two, different ids merge clocks and tries, keeping `a`'s id. -/
def merge (a b : Container) : Container :=
  if a.id = b.id then
    if happensBefore a.version b.version then b else a
  else
    { id := a.id, root := mergeTries a.root b.root,
      version := mergeClocks a.version b.version }

mutual

/-- Source `toValue(trie)`: a value leaf gives its payload; a branch
rebuilds a keyed record from the children whose own `toValue` is
defined, and an empty record collapses to `undefined` (`none`). -/
def toValue : Trie → Option Val
  | .value v _ => some v
  | .branch ch =>
    match toValueEntries ch with
    | [] => none
    | fs => some (.vobj fs)

/-- The child fold inside source `toValue`: children reconstructing
`undefined` are omitted. -/
def toValueEntries : List (String × Trie) → List (String × Val)
  | [] => []
  | (k, c) :: rest =>
    match toValue c with
    | some v => (k, v) :: toValueEntries rest
    | none => toValueEntries rest

end

/-- Modelled from the spec: `has(path, node)` is absent from `src`
(only the trie test file imports it); spec section 4.2 defines it as
true iff `get` resolves to any leaf or branch. -/
def has (path : List String) (t : Trie) : Bool := (get path t).isSome

/-- True on the canonical empty tree (a branch with no children). -/
def isEmptyBranch : Trie → Bool
  | .branch [] => true
  | _ => false

/-- Modelled from the spec: `removeValue(path, node)` is absent from
`src`; spec section 4.2 says it clears the leaf at `path` to no value
while retaining the branch structure, so the path stays addressable
(`get` still resolves, `toValue` there is `undefined`) and siblings are
untouched.  The present-but-valueless node is the empty branch, the
one source node shape whose `toValue` is `undefined`. -/
def removeValue : List String → Trie → Trie
  | [], .value _ _ => emptyTrie
  | [], .branch ch => .branch ch
  | k :: rest, .branch ch =>
    match lookupA ch k with
    | some c => .branch (upsertA ch k (removeValue rest c))
    | none => .branch ch
  | _ :: _, t => t

/-- Modelled from the spec: `removePath(path, node)` is absent from
`src`; spec section 4.2 says it removes the leaf and prunes every
ancestor branch that becomes empty, up to the canonical empty tree. -/
def removePath : List String → Trie → Trie
  | [], _ => emptyTrie
  | k :: rest, .branch ch =>
    match lookupA ch k with
    | some c =>
      let c2 := removePath rest c
      if isEmptyBranch c2 then .branch (eraseA ch k)
      else .branch (upsertA ch k c2)
    | none => .branch ch
  | _ :: _, t => t

/-- The happens-before relation as the specification words it: every
entry of `a` (absent = 0) at most the corresponding entry of `b`, at
least one strictly less, and no entry of `a` — keys absent from `b`
included — exceeding `b`; both key sets are examined. -/
def happensBeforeClaim (a b : VectorClock) : Bool :=
  ((a ++ b).all fun kv => lookup0 a kv.1 ≤ lookup0 b kv.1) &&
  ((a ++ b).any fun kv => decide (lookup0 a kv.1 < lookup0 b kv.1))

/-- The failure condition of `set` as the specification words it:
walking a non-empty remainder of the path reaches an existing value
leaf (descending through a leaf as if it were a branch). -/
def pathBlocked : List String → Trie → Bool
  | [], _ => false
  | _ :: _, .value _ _ => true
  | k :: rest, .branch ch =>
    match lookupA ch k with
    | some c => pathBlocked rest c
    | none => false

/-- A well-formed clock representation: unique keys (a JavaScript
object cannot repeat a property name) and real number entries (the
non-negative counters of the data model, no `NaN`). -/
def wfClock (c : VectorClock) : Prop :=
  (c.map Prod.fst).Nodup ∧ ∀ kv ∈ c, kv.2.isNum = true

instance (c : VectorClock) : Decidable (wfClock c) := by
  unfold wfClock; exact instDecidableAnd

/-- Container of replica `a` after its single write `set(["k"], 1, ·)`
on `createContainer("a")`. -/
def cA : Container :=
  { root := .branch [("k", .value (.vnat 1) [("a", .num 1)])],
    id := "a", version := [("a", .num 1)] }

/-- Container of replica `b` after its single write `set(["k"], 2, ·)`
on `createContainer("b")`. -/
def cB : Container :=
  { root := .branch [("k", .value (.vnat 2) [("b", .num 1)])],
    id := "b", version := [("b", .num 1)] }

/-- Root tree of the tombstone scenario: value 2 at `["a","c"]` then
value 1 at `["a","b"]`, written by replica `r` through `set`. -/
def tC9 : Trie :=
  .branch [("a", .branch
    [("c", .value (.vnat 2) [("r", .num 1)]),
     ("b", .value (.vnat 1) [("r", .num 2)])])]

/-- Root tree produced by `set(["a"], [1, 2], createContainer("r"))`:
one value leaf holding the whole array. -/
def c4root : Trie :=
  .branch [("a", .value (.varr [.vnat 1, .vnat 2]) [("r", .num 1)])]

/-- A branch holding a value only it can reach (at path `["x"]`). -/
def mixedBranch : Trie := .branch [("x", .value (.vnat 7) [("r", .num 1)])]

/-- A value leaf, the other side of the mixed-shape merge. -/
def mixedLeaf : Trie := .value (.vnat 9) [("s", .num 1)]

/-- Numeric observation on an optional payload, used to tell concrete
trees apart by what they store. -/
def natVal : Option Val → Option Nat
  | some (.vnat n) => some n
  | _ => none

/-! ### Association-list and clock lemmas -/

/-- Updating a key then reading it gives the written entry. -/
theorem lookupA_upsertA_self {α : Type} (l : List (String × α)) (k : String) (v : α) :
    lookupA (upsertA l k v) k = some v := by
  induction l with
  | nil => simp [upsertA, lookupA]
  | cons kv rest ih =>
    obtain ⟨k0, v0⟩ := kv
    by_cases h : k0 = k
    · simp [upsertA, h, lookupA]
    · simp [upsertA, h, lookupA, ih]

/-- Updating one key leaves reads of any other key unchanged. -/
theorem lookupA_upsertA_ne {α : Type} (l : List (String × α)) (k k2 : String) (v : α)
    (h : k2 ≠ k) : lookupA (upsertA l k v) k2 = lookupA l k2 := by
  induction l with
  | nil =>
    have h2 : ¬(k = k2) := fun hh => h hh.symm
    simp [upsertA, lookupA, h2]
  | cons kv rest ih =>
    obtain ⟨k0, v0⟩ := kv
    by_cases hk : k0 = k
    · subst hk
      have h2 : ¬(k0 = k2) := fun hh => h hh.symm
      simp [upsertA, lookupA, h2]
    · simp [upsertA, hk, lookupA, ih]

/-- A successful lookup exhibits a list member. -/
theorem lookupA_mem {α : Type} {l : List (String × α)} {k : String} {v : α}
    (h : lookupA l k = some v) : (k, v) ∈ l := by
  induction l with
  | nil => simp [lookupA] at h
  | cons kv rest ih =>
    obtain ⟨k0, v0⟩ := kv
    by_cases hk : k0 = k
    · subst hk
      simp [lookupA] at h
      simp [h]
    · simp [lookupA, hk] at h
      exact List.mem_cons_of_mem _ (ih h)

/-- Lookup fails exactly on keys outside the key list. -/
theorem lookupA_eq_none {α : Type} (l : List (String × α)) (k : String) :
    lookupA l k = none ↔ k ∉ l.map Prod.fst := by
  induction l with
  | nil => simp [lookupA]
  | cons kv rest ih =>
    obtain ⟨k0, v0⟩ := kv
    by_cases hk : k0 = k
    · subst hk
      simp [lookupA]
    · have h2 : ¬(k = k0) := fun hh => hk hh.symm
      simp [lookupA, hk, h2, ih]

/-- One step of the `mergeClocks` fold. -/
theorem mergeClocks_cons (a : VectorClock) (k0 : String) (v0 : JsNum)
    (rest : List (String × JsNum)) :
    mergeClocks a ((k0, v0) :: rest) =
      mergeClocks (upsertA a k0 (jsMax (lookup0 a k0) v0)) rest := rfl

/-- Folding an empty clock in is the identity. -/
theorem mergeClocks_nil (a : VectorClock) : mergeClocks a [] = a := rfl

/-- What `mergeClocks` stores at each key, provided the second clock
has no repeated key (a JavaScript object never has): a key of `b` holds
the `Math.max` of the two reads, any other key reads through to `a`. -/
theorem lookupA_mergeClocks (a b : VectorClock) (k : String)
    (hb : (b.map Prod.fst).Nodup) :
    lookupA (mergeClocks a b) k =
      match lookupA b k with
      | some bv => some (jsMax (lookup0 a k) bv)
      | none => lookupA a k := by
  induction b generalizing a with
  | nil => simp [mergeClocks_nil, lookupA]
  | cons kv rest ih =>
    obtain ⟨k0, v0⟩ := kv
    rw [List.map_cons, List.nodup_cons] at hb
    obtain ⟨hb0, hbr⟩ := hb
    rw [mergeClocks_cons, ih _ hbr]
    by_cases hk : k0 = k
    · subst hk
      have hrest : lookupA rest k0 = none := (lookupA_eq_none rest k0).mpr hb0
      simp [lookupA, hrest, lookup0, lookupA_upsertA_self]
    · have h2 : ¬(k = k0) := fun hh => hk hh.symm
      have hup : lookupA (upsertA a k0 (jsMax (or0 (lookupA a k0)) v0)) k = lookupA a k :=
        lookupA_upsertA_ne a k0 k _ h2
      cases hrk : lookupA rest k <;> simp [lookupA, hk, hrk, lookup0, hup]

/-- Pointwise reading of a merged clock is the maximum of the two
pointwise reads, for a well-formed second clock. -/
theorem lookup0_mergeClocks (a b : VectorClock) (k : String) (hb : wfClock b) :
    lookup0 (mergeClocks a b) k = max (lookup0 a k) (lookup0 b k) := by
  have h := lookupA_mergeClocks a b k hb.1
  cases hbk : lookupA b k with
  | none =>
    rw [hbk] at h
    simp [lookup0, h, hbk, or0]
  | some bv =>
    rw [hbk] at h
    have hnum : bv.isNum = true := hb.2 _ (lookupA_mem hbk)
    cases bv with
    | num m => simp [lookup0, h, hbk, or0, jsMax]
    | nan => simp [JsNum.isNum] at hnum

/-- A merged clock has an entry exactly at the union of the key sets. -/
theorem lookupA_mergeClocks_isSome (a b : VectorClock) (k : String)
    (hb : (b.map Prod.fst).Nodup) :
    (lookupA (mergeClocks a b) k).isSome =
      ((lookupA a k).isSome || (lookupA b k).isSome) := by
  have h := lookupA_mergeClocks a b k hb
  cases hbk : lookupA b k <;> rw [hbk] at h <;> simp [h]

/-- The key list of an update: unchanged for an existing key, the new
key appended otherwise. -/
theorem keys_upsertA {α : Type} (l : List (String × α)) (k : String) (v : α) :
    (upsertA l k v).map Prod.fst =
      if k ∈ l.map Prod.fst then l.map Prod.fst else l.map Prod.fst ++ [k] := by
  induction l with
  | nil => simp [upsertA]
  | cons kv rest ih =>
    obtain ⟨k0, v0⟩ := kv
    by_cases hk : k0 = k
    · subst hk
      simp [upsertA]
    · have h2 : ¬(k = k0) := fun hh => hk hh.symm
      by_cases hmem : k ∈ rest.map Prod.fst <;>
        simp [upsertA, hk, h2, hmem, ih]

/-- Updates preserve key uniqueness. -/
theorem nodupKeys_upsertA {α : Type} (l : List (String × α)) (k : String) (v : α)
    (h : (l.map Prod.fst).Nodup) : ((upsertA l k v).map Prod.fst).Nodup := by
  rw [keys_upsertA]
  by_cases hmem : k ∈ l.map Prod.fst
  · simpa [hmem]
  · simp only [hmem, if_false]
    exact List.Nodup.append h (List.nodup_singleton k)
      (by simpa [List.disjoint_singleton] using hmem)

/-- Merging clocks preserves key uniqueness of the first clock. -/
theorem nodupKeys_mergeClocks (a b : VectorClock)
    (ha : (a.map Prod.fst).Nodup) : ((mergeClocks a b).map Prod.fst).Nodup := by
  induction b generalizing a with
  | nil => simpa [mergeClocks_nil]
  | cons kv rest ih =>
    obtain ⟨k0, v0⟩ := kv
    rw [mergeClocks_cons]
    exact ih _ (nodupKeys_upsertA a k0 _ ha)

/-- Any member of an updated list is an old member or the new entry. -/
theorem mem_upsertA {α : Type} {l : List (String × α)} {k : String} {v : α}
    {kv : String × α} (h : kv ∈ upsertA l k v) : kv ∈ l ∨ kv = (k, v) := by
  induction l with
  | nil => simpa [upsertA] using h
  | cons kv0 rest ih =>
    obtain ⟨k0, v0⟩ := kv0
    by_cases hk : k0 = k
    · subst hk
      simp [upsertA] at h
      rcases h with h | h
      · subst h; right; rfl
      · left; exact List.mem_cons_of_mem _ h
    · simp [upsertA, hk] at h
      rcases h with h | h
      · subst h; left; simp
      · rcases ih h with h2 | h2
        · left; exact List.mem_cons_of_mem _ h2
        · right; exact h2

/-- Merging two clocks with real-number entries yields real-number
entries (no `NaN` can appear). -/
theorem allNum_mergeClocks (a b : VectorClock)
    (ha : ∀ kv ∈ a, (kv.2 : JsNum).isNum = true)
    (hb : ∀ kv ∈ b, (kv.2 : JsNum).isNum = true) :
    ∀ kv ∈ mergeClocks a b, (kv.2 : JsNum).isNum = true := by
  induction b generalizing a with
  | nil => simpa [mergeClocks_nil] using ha
  | cons kv0 rest ih =>
    obtain ⟨k0, v0⟩ := kv0
    rw [mergeClocks_cons]
    have hv0 : v0.isNum = true := hb (k0, v0) (by simp)
    refine ih _ ?_ ?_
    · intro kv hkv
      rcases mem_upsertA hkv with h | h
      · exact ha kv h
      · subst h
        cases v0 with
        | num m => simp [jsMax, JsNum.isNum]
        | nan => simp [JsNum.isNum] at hv0
    · intro kv hkv
      exact hb kv (List.mem_cons_of_mem _ hkv)

/-- Well-formedness of clocks is preserved by `mergeClocks`. -/
theorem wfClock_mergeClocks (a b : VectorClock) (ha : wfClock a) (hb : wfClock b) :
    wfClock (mergeClocks a b) :=
  ⟨nodupKeys_mergeClocks a b ha.1, allNum_mergeClocks a b ha.2 hb.2⟩

/-! ### The failure condition of `setInTrie` -/

/-- No path is blocked in the empty tree: `setInTrie` builds missing
branches as it goes. -/
theorem pathBlocked_emptyTrie (p : List String) : pathBlocked p emptyTrie = false := by
  cases p <;> simp [pathBlocked, emptyTrie, lookupA]

/-- Source `setInTrie` throws exactly when a non-empty remainder of the
path runs into an existing value leaf. -/
theorem setInTrie_none_iff (p : List String) (v : Val) (ver : VectorClock) (t : Trie) :
    setInTrie p v ver t = none ↔ pathBlocked p t = true := by
  induction p generalizing t with
  | nil => simp [setInTrie, pathBlocked]
  | cons k rest ih =>
    cases t with
    | value w wv => simp [setInTrie, pathBlocked]
    | branch ch =>
      cases hc : lookupA ch k with
      | some c =>
        simp only [setInTrie, pathBlocked, hc, Option.getD_some]
        cases hs : setInTrie rest v ver c with
        | none => simpa [hs] using (ih c).mp hs
        | some r =>
          simp only [hs, Option.map_some']
          constructor
          · intro hh; exact absurd hh (by simp)
          · intro hh
            have := (ih c).mpr hh
            rw [hs] at this
            exact absurd this (by simp)
      | none =>
        simp only [setInTrie, pathBlocked, hc, Option.getD_none]
        have hempty : setInTrie rest v ver emptyTrie ≠ none := by
          rw [Ne, ih emptyTrie, pathBlocked_emptyTrie]
          simp
        cases hs : setInTrie rest v ver emptyTrie with
        | none => exact absurd hs hempty
        | some r => simp [hs]

/-! ### Container merge helpers -/

/-- The merged container always carries the first argument's id. -/
theorem merge_id_eq (a b : Container) : (merge a b).id = a.id := by
  unfold merge
  by_cases h : a.id = b.id
  · rw [if_pos h]
    cases happensBefore a.version b.version <;> simp [h.symm]
  · rw [if_neg h]

/-- On the cross-replica path the merged version is `mergeClocks` of the
two versions. -/
theorem merge_version_eq (a b : Container) (h : a.id ≠ b.id) :
    (merge a b).version = mergeClocks a.version b.version := by
  unfold merge
  rw [if_neg h]

/-! ### Claim theorems -/

/-- Claim C1.  The code is the divergent side: `happensBefore` iterates
only over the keys of `b`, so for `a = {x:1}` and `b = {y:1}` it
returns `true` in both directions, although each clock has an entry
exceeding the other's absent (= 0) entry and the claimed
characterisation (`happensBeforeClaim`) is `false` both ways — the two
clocks are concurrent. -/
theorem C1_happensBefore_ignores_extra_keys_of_a :
    happensBefore [("x", JsNum.num 1)] [("y", JsNum.num 1)] = true ∧
    happensBefore [("y", JsNum.num 1)] [("x", JsNum.num 1)] = true ∧
    happensBeforeClaim [("x", JsNum.num 1)] [("y", JsNum.num 1)] = false ∧
    happensBeforeClaim [("y", JsNum.num 1)] [("x", JsNum.num 1)] = false :=
  ⟨rfl, rfl, rfl, rfl⟩

/-- Claim C10.  `merge` always returns a container with the first
argument's id: on the same-id fast path both candidates carry that id,
and the structural path sets it explicitly. -/
theorem C10_merge_keeps_first_id (a b : Container) : (merge a b).id = a.id :=
  merge_id_eq a b

/-- Claim C3, behaviour of the code on value leaves: last-writer-wins
by `happensBefore`, with no clock merge and no conflict policy. -/
theorem C3_value_merge_is_lww (v1 v2 : Val) (c1 c2 : VectorClock) :
    mergeTries (.value v1 c1) (.value v2 c2) =
      if happensBefore c1 c2 then .value v2 c2 else .value v1 c1 := rfl

/-- Claim C3, counterexample: the clocks `{r1:2, r2:1}` and
`{r1:1, r2:2}` are concurrent (neither `happensBefore` the other, and
they differ), yet the merged leaf keeps the first argument's clock
unchanged — at `r2` it reads 1, not the claimed pointwise maximum 2 —
and swapping the arguments swaps the winning value, so the winner is
not order-independent. -/
theorem C3_concurrent_value_merge_counterexample :
    happensBefore [("r1", JsNum.num 2), ("r2", JsNum.num 1)]
      [("r1", JsNum.num 1), ("r2", JsNum.num 2)] = false ∧
    happensBefore [("r1", JsNum.num 1), ("r2", JsNum.num 2)]
      [("r1", JsNum.num 2), ("r2", JsNum.num 1)] = false ∧
    ([("r1", JsNum.num 2), ("r2", JsNum.num 1)] : VectorClock) ≠
      [("r1", JsNum.num 1), ("r2", JsNum.num 2)] ∧
    mergeTries (.value (.vnat 1) [("r1", JsNum.num 2), ("r2", JsNum.num 1)])
        (.value (.vnat 2) [("r1", JsNum.num 1), ("r2", JsNum.num 2)]) =
      .value (.vnat 1) [("r1", JsNum.num 2), ("r2", JsNum.num 1)] ∧
    mergeTries (.value (.vnat 2) [("r1", JsNum.num 1), ("r2", JsNum.num 2)])
        (.value (.vnat 1) [("r1", JsNum.num 2), ("r2", JsNum.num 1)]) =
      .value (.vnat 2) [("r1", JsNum.num 1), ("r2", JsNum.num 2)] ∧
    lookup0 [("r1", JsNum.num 2), ("r2", JsNum.num 1)] "r2" ≠
      max (lookup0 [("r1", JsNum.num 2), ("r2", JsNum.num 1)] "r2")
        (lookup0 [("r1", JsNum.num 1), ("r2", JsNum.num 2)] "r2") :=
  ⟨rfl, rfl, by decide, rfl, rfl, by decide⟩

/-- Claim C4.  The code is the divergent side: `set` of a compound
payload (the array `[1, 2]`) stores one value leaf holding the whole
array — the node at the path is a leaf, not a branch, no element is
retrievable at a child path, although the repository's trie tests
assert element-wise access. -/
theorem C4_compound_payload_stored_as_single_leaf :
    set ["a"] (.varr [.vnat 1, .vnat 2]) (createContainer "r") =
      some { root := c4root, id := "r", version := [("r", JsNum.num 1)] } ∧
    get ["a"] c4root =
      some (.value (.varr [.vnat 1, .vnat 2]) [("r", JsNum.num 1)]) ∧
    isLeafOf (.value (.varr [.vnat 1, .vnat 2]) [("r", JsNum.num 1)]) = true ∧
    get ["a", "0"] c4root = none ∧
    ((get ["a", "0"] c4root).bind toValue) = none :=
  ⟨rfl, rfl, rfl, rfl, rfl⟩

/-- Claim C5, behaviour of the code on mixed shapes: the second
argument is returned unconditionally. -/
theorem C5_mixed_merge_takes_second (a b : Trie) (h : isLeafOf a ≠ isLeafOf b) :
    mergeTries a b = b := by
  cases a with
  | value v va =>
    cases b with
    | value w wb => exact absurd rfl h
    | branch cb => rfl
  | branch ca =>
    cases b with
    | value w wb => rfl
    | branch cb => exact absurd rfl h

/-- Witness for C5: a concrete mixed pair. -/
theorem C5_mixed_merge_takes_second_witness :
    mergeTries mixedBranch mixedLeaf = mixedLeaf :=
  C5_mixed_merge_takes_second mixedBranch mixedLeaf (by decide)

/-- Claim C5, counterexample to the no-data-loss half: the branch side
alone resolves the path `["x"]`, but the merged result (the leaf side)
does not — the value at the unique path is silently dropped. -/
theorem C5_mixed_merge_drops_unique_path :
    mergeTries mixedBranch mixedLeaf = mixedLeaf ∧
    get ["x"] mixedBranch = some (.value (.vnat 7) [("r", JsNum.num 1)]) ∧
    get ["x"] mixedLeaf = none ∧
    get ["x"] (mergeTries mixedBranch mixedLeaf) = none :=
  ⟨rfl, rfl, rfl, rfl⟩

/-- Claim C6, counterexample: on a container whose version lacks its
own id entry, `set` succeeds but stores `NaN`
(`undefined + 1`), not the claimed `0 + 1 = 1`. -/
theorem C6_set_on_missing_own_entry_gives_nan :
    set ["k"] (.vnat 1) { root := emptyTrie, id := "r", version := [] } =
      some { root := .branch [("k", .value (.vnat 1) [("r", JsNum.nan)])],
             id := "r", version := [("r", JsNum.nan)] } ∧
    lookupA [("r", JsNum.nan)] "r" = some JsNum.nan ∧
    JsNum.nan ≠ JsNum.num (0 + 1) :=
  ⟨rfl, rfl, by decide⟩

/-- Claim C9.  `removeValue` keeps the path addressable with no value
(tombstone), `removePath` prunes it, and in both results the sibling
`["a","c"]` still reads 2; the scenario tree is built through two
`set` writes of replica `r`. -/
theorem C9_tombstone_semantics :
    set ["a", "c"] (.vnat 2) (createContainer "r") =
      some { root := .branch [("a", .branch [("c", .value (.vnat 2) [("r", JsNum.num 1)])])],
             id := "r", version := [("r", JsNum.num 1)] } ∧
    set ["a", "b"] (.vnat 1)
        { root := .branch [("a", .branch [("c", .value (.vnat 2) [("r", JsNum.num 1)])])],
          id := "r", version := [("r", JsNum.num 1)] } =
      some { root := tC9, id := "r", version := [("r", JsNum.num 2)] } ∧
    has ["a", "b"] (removeValue ["a", "b"] tC9) = true ∧
    ((get ["a", "b"] (removeValue ["a", "b"] tC9)).bind toValue) = none ∧
    has ["a", "b"] (removePath ["a", "b"] tC9) = false ∧
    ((get ["a", "c"] (removeValue ["a", "b"] tC9)).bind toValue) = some (.vnat 2) ∧
    ((get ["a", "c"] (removePath ["a", "b"] tC9)).bind toValue) = some (.vnat 2) :=
  ⟨rfl, rfl, rfl, rfl, rfl, rfl, rfl⟩

/-- Claim C2, counterexample: two containers with distinct ids, each
built by a single versioned `set` on a fresh container, merge
differently in the two orders — the ids differ (`merge` keeps the
first argument's id) and even the surviving value at `["k"]` differs,
because each one-sided clock `happensBefore` the other under the
source comparison, so the second argument's leaf always wins. -/
theorem C2_merge_not_commutative :
    set ["k"] (.vnat 1) (createContainer "a") = some cA ∧
    set ["k"] (.vnat 2) (createContainer "b") = some cB ∧
    cA.id ≠ cB.id ∧
    (merge cA cB).id ≠ (merge cB cA).id ∧
    natVal ((get ["k"] (merge cA cB).root).bind toValue) = some 2 ∧
    natVal ((get ["k"] (merge cB cA).root).bind toValue) = some 1 ∧
    merge cA cB ≠ merge cB cA := by
  refine ⟨rfl, rfl, by decide, by decide, rfl, rfl, fun h => ?_⟩
  exact absurd (congrArg Container.id h) (by decide)

/-- Claim C2 as amended: for distinct-id containers with well-formed
clocks the two merge orders agree on the version clock pointwise, but
each result carries its own first argument's id (and the roots may
differ, as the counterexample shows). -/
theorem C2_merge_commutes_only_on_version (a b : Container) (k : String)
    (h : a.id ≠ b.id) (ha : wfClock a.version) (hb : wfClock b.version) :
    (merge a b).id = a.id ∧ (merge b a).id = b.id ∧
    lookup0 (merge a b).version k = lookup0 (merge b a).version k := by
  refine ⟨merge_id_eq a b, merge_id_eq b a, ?_⟩
  rw [merge_version_eq a b h, merge_version_eq b a (fun hh => h hh.symm)]
  rw [lookup0_mergeClocks _ _ _ hb, lookup0_mergeClocks _ _ _ ha]
  exact Nat.max_comm _ _

/-- Witness for C2 as amended, at the two concrete containers. -/
theorem C2_merge_commutes_only_on_version_witness :
    (merge cA cB).id = cA.id ∧ (merge cB cA).id = cB.id ∧
    lookup0 (merge cA cB).version "a" = lookup0 (merge cB cA).version "a" :=
  C2_merge_commutes_only_on_version cA cB "a" (by decide) (by decide) (by decide)

/-- Claim C6 as amended: when the container's version does hold a
numeric entry for its own id, a successful `set` stores exactly that
entry plus one, leaves every other key's entry unchanged, and keeps
the id. -/
theorem C6_set_increments_present_entry (c : Container) (path : List String) (v : Val)
    (c2 : Container) (n : Nat) (k : String)
    (h1 : lookupA c.version c.id = some (.num n))
    (h2 : set path v c = some c2) (h3 : k ≠ c.id) :
    lookupA c2.version c.id = some (.num (n + 1)) ∧
    lookupA c2.version k = lookupA c.version k ∧
    c2.id = c.id := by
  have h2b : (setInTrie path v (upsertA c.version c.id (jsInc (lookupA c.version c.id)))
        c.root).map
      (fun r => Container.mk r c.id (upsertA c.version c.id (jsInc (lookupA c.version c.id)))) =
      some c2 := h2
  cases hs : setInTrie path v (upsertA c.version c.id (jsInc (lookupA c.version c.id)))
      c.root with
  | none => rw [hs] at h2b; exact absurd h2b (by simp)
  | some r =>
    rw [hs] at h2b
    simp only [Option.map_some', Option.some.injEq] at h2b
    have hver : c2.version = upsertA c.version c.id (.num (n + 1)) := by
      rw [← h2b]
      simp [h1, jsInc]
    have hid : c2.id = c.id := by rw [← h2b]
    refine ⟨?_, ?_, hid⟩
    · rw [hver]; exact lookupA_upsertA_self _ _ _
    · rw [hver]; exact lookupA_upsertA_ne _ _ _ _ h3

/-- Witness for C6 as amended: a further write on container `cA`. -/
theorem C6_set_increments_present_entry_witness :
    lookupA (Container.version
        { root := .branch [("k", .value (.vnat 5) [("a", JsNum.num 2)])],
          id := "a", version := [("a", JsNum.num 2)] }) (Container.id cA) =
      some (.num (1 + 1)) ∧
    lookupA (Container.version
        { root := .branch [("k", .value (.vnat 5) [("a", JsNum.num 2)])],
          id := "a", version := [("a", JsNum.num 2)] }) "z" =
      lookupA (Container.version cA) "z" ∧
    Container.id
        { root := Trie.branch [("k", .value (.vnat 5) [("a", JsNum.num 2)])],
          id := "a", version := [("a", JsNum.num 2)] } =
      Container.id cA :=
  C6_set_increments_present_entry cA ["k"] (.vnat 5)
    { root := .branch [("k", .value (.vnat 5) [("a", JsNum.num 2)])],
      id := "a", version := [("a", JsNum.num 2)] } 1 "z" rfl rfl (by decide)

/-- Claim C7.  `set` fails exactly when a non-empty remainder of the
path reaches an existing value leaf (`pathBlocked`); failure produces
no output container (`none`), and the embedding is pure, so the input
container is untouched in every case. -/
theorem C7_set_fails_iff_path_through_leaf (path : List String) (v : Val) (c : Container) :
    set path v c = none ↔ pathBlocked path c.root = true := by
  have hdef : set path v c =
      (setInTrie path v (upsertA c.version c.id (jsInc (lookupA c.version c.id)))
        c.root).map
      (fun r => Container.mk r c.id (upsertA c.version c.id (jsInc (lookupA c.version c.id)))) := rfl
  rw [hdef,
    ← setInTrie_none_iff path v (upsertA c.version c.id (jsInc (lookupA c.version c.id)))
      c.root]
  cases hs : setInTrie path v (upsertA c.version c.id (jsInc (lookupA c.version c.id)))
      c.root <;> simp [hs]

/-- Claim C8.  For well-formed clocks, `mergeClocks` reads as the
pointwise maximum (absent = 0), its key set is the union of the two
key sets, and it is commutative, associative and idempotent pointwise;
the spec's concrete scenario evaluates exactly as claimed. -/
theorem C8_mergeClocks_is_pointwise_max_crdt (a b c : VectorClock) (k : String)
    (ha : wfClock a) (hb : wfClock b) (hc : wfClock c) :
    lookup0 (mergeClocks a b) k = max (lookup0 a k) (lookup0 b k) ∧
    (lookupA (mergeClocks a b) k).isSome =
      ((lookupA a k).isSome || (lookupA b k).isSome) ∧
    lookup0 (mergeClocks a b) k = lookup0 (mergeClocks b a) k ∧
    lookup0 (mergeClocks (mergeClocks a b) c) k =
      lookup0 (mergeClocks a (mergeClocks b c)) k ∧
    lookup0 (mergeClocks a a) k = lookup0 a k ∧
    mergeClocks [("r1", JsNum.num 1), ("r2", JsNum.num 2)]
        [("r2", JsNum.num 3), ("r3", JsNum.num 1)] =
      [("r1", JsNum.num 1), ("r2", JsNum.num 3), ("r3", JsNum.num 1)] := by
  refine ⟨lookup0_mergeClocks a b k hb, lookupA_mergeClocks_isSome a b k hb.1, ?_, ?_, ?_, rfl⟩
  · rw [lookup0_mergeClocks a b k hb, lookup0_mergeClocks b a k ha]
    exact Nat.max_comm _ _
  · rw [lookup0_mergeClocks _ c k hc, lookup0_mergeClocks a b k hb,
      lookup0_mergeClocks a _ k (wfClock_mergeClocks b c hb hc),
      lookup0_mergeClocks b c k hc]
    exact Nat.max_assoc _ _ _
  · rw [lookup0_mergeClocks a a k ha]
    exact Nat.max_self _

/-- Witness for C8, at concrete well-formed clocks. -/
theorem C8_mergeClocks_is_pointwise_max_crdt_witness :
    lookup0 (mergeClocks [("p", JsNum.num 1)] [("q", JsNum.num 2)]) "p" =
      max (lookup0 [("p", JsNum.num 1)] "p") (lookup0 [("q", JsNum.num 2)] "p") ∧
    (lookupA (mergeClocks [("p", JsNum.num 1)] [("q", JsNum.num 2)]) "p").isSome =
      ((lookupA [("p", JsNum.num 1)] "p").isSome ||
        (lookupA [("q", JsNum.num 2)] "p").isSome) ∧
    lookup0 (mergeClocks [("p", JsNum.num 1)] [("q", JsNum.num 2)]) "p" =
      lookup0 (mergeClocks [("q", JsNum.num 2)] [("p", JsNum.num 1)]) "p" ∧
    lookup0 (mergeClocks (mergeClocks [("p", JsNum.num 1)] [("q", JsNum.num 2)]) []) "p" =
      lookup0 (mergeClocks [("p", JsNum.num 1)] (mergeClocks [("q", JsNum.num 2)] [])) "p" ∧
    lookup0 (mergeClocks [("p", JsNum.num 1)] [("p", JsNum.num 1)]) "p" =
      lookup0 [("p", JsNum.num 1)] "p" ∧
    mergeClocks [("r1", JsNum.num 1), ("r2", JsNum.num 2)]
        [("r2", JsNum.num 3), ("r3", JsNum.num 1)] =
      [("r1", JsNum.num 1), ("r2", JsNum.num 3), ("r3", JsNum.num 1)] :=
  C8_mergeClocks_is_pointwise_max_crdt [("p", JsNum.num 1)] [("q", JsNum.num 2)] [] "p"
    (by decide) (by decide) (by decide)
